import Mathlib

/-!
Verification of the settings-reconciliation engine of the
`low-vision-accessibility` VS Code extension (`AccessibilityPanel`,
`src/unnamed/part_002`).

The subsystem under study is the webview script embedded in
`_getHtmlForWebview` (the `pendingUpdates` ledger, `updateUIWithSettings`,
`applySetting`, `applyRecommended`, `resetAllSettings`, `updateRangeValue`)
together with the extension-side handlers (`_applySettings`,
`_resetSettings`, `_applyRecommendedSettings`, `_sendCurrentSettings`) and
the debounced `onDidChangeConfiguration` listener.

Modelling conventions:
* JavaScript setting values are booleans, numbers, strings, or
  `null`/`undefined`.  JS numbers are idealised as rationals; `null` and
  `undefined` are collapsed into one `absent` constructor (the code never
  distinguishes them: every test is `value !== null && value !== undefined`
  or `value ?? x`, and ledger values never hold `null`/`undefined`).
* The `pendingUpdates` JS object is modelled as an association list with
  JS object semantics: assignment overwrites in place, `delete` removes the
  entry, `hasOwnProperty` is key lookup.
* The static DOM of the panel (control element per setting key, with its
  `type`/`tagName`) is the table `panelControls`, transcribed from the HTML.
* `setTimeout`/`clearTimeout` debouncing is modelled as a step function
  over a time-ordered list of change-notification events.
-/

/-- A JavaScript setting value: boolean, number (idealised as a rational),
string, or absent (`null`/`undefined`, i.e. "no override"). -/
inductive SettingValue where
  | vBool : Bool → SettingValue
  | vNum : ℚ → SettingValue
  | vStr : String → SettingValue
  | absent : SettingValue
deriving DecidableEq

/-- JS truthiness (`value || fallback`): `false`, `0`, `""`,
`null`/`undefined` are falsy. -/
def truthy : SettingValue → Bool
  | .vBool b => b
  | .vNum q => decide (q ≠ 0)
  | .vStr s => decide (s ≠ "")
  | .absent => false

/-- Does the character list `hay` start with `needle`? -/
def startsWithL : List Char → List Char → Bool
  | _, [] => true
  | [], _ :: _ => false
  | a :: as, b :: bs => a == b && startsWithL as bs

/-- Does the character list contain `needle` as a contiguous run?
Models `String.prototype.includes`. -/
def hasSubL (needle : List Char) : List Char → Bool
  | [] => needle.isEmpty
  | c :: rest => startsWithL (c :: rest) needle || hasSubL needle rest

/-- Model of JS `hay.includes(needle)`. -/
def strIncludes (hay needle : String) : Bool :=
  hasSubL needle.toList hay.toList

/-- Numeric value of a list of decimal digit characters. -/
def digitsVal (ds : List Char) : Nat :=
  ds.foldl (fun a c => a * 10 + (c.toNat - 48)) 0

/-- Model of JS `parseFloat` on a string: optional leading whitespace and
sign, then digits with an optional fractional part.  `none` models `NaN`.
(The exponent form is not modelled; no string produced by this panel
uses it.) -/
def jsParseFloat (s : String) : Option ℚ :=
  let cs := s.toList.dropWhile (fun c => c == ' ' || c == '\t' || c == '\n')
  let signed : Bool × List Char :=
    match cs with
    | '-' :: r => (true, r)
    | '+' :: r => (false, r)
    | _ => (false, cs)
  let ds := signed.2.takeWhile Char.isDigit
  let rest := signed.2.dropWhile Char.isDigit
  let fs :=
    match rest with
    | '.' :: r => r.takeWhile Char.isDigit
    | _ => []
  if ds.isEmpty && fs.isEmpty then none
  else
    let mag : ℚ := (digitsVal ds : ℚ) + (digitsVal fs : ℚ) / ((10 : ℚ) ^ fs.length)
    some (if signed.1 then -mag else mag)

/-- Decimal string of an integer. -/
def intRepr (i : Int) : String :=
  if i < 0 then "-" ++ Nat.repr i.natAbs else Nat.repr i.natAbs

/-- Least `k ≤ 39` with `den ∣ 10 ^ k`, if any. -/
def pow10Exp (den : Nat) : Option Nat :=
  (List.range 40).find? (fun k => decide (den ∣ 10 ^ k))

/-- Left-pad a string with zeros to the given length. -/
def padZeros (len : Nat) (s : String) : String :=
  String.mk (List.replicate (len - s.length) '0') ++ s

/-- Model of JS number-to-string coercion for decimal-terminating values:
integers print with no decimal point, other terminating decimals print
with their minimal digits (`1.6` → "1.6", `20` → "20").  JS numbers are
binary floating point, whose exact values always terminate in decimal, so
the fallback branch is outside the representable domain. -/
def numToString (q : ℚ) : String :=
  match pow10Exp q.den with
  | some 0 => intRepr q.num
  | some (k + 1) =>
    let n : Nat := q.num.natAbs * 10 ^ (k + 1) / q.den
    let ip := n / 10 ^ (k + 1)
    let fp := n % 10 ^ (k + 1)
    (if q.num < 0 then "-" else "") ++ Nat.repr ip ++ "." ++ padZeros (k + 1) (Nat.repr fp)
  | none => "[nondecimal " ++ intRepr q.num ++ "/" ++ Nat.repr q.den ++ "]"

/-- `toFixed(1)` for a nonnegative rational `q = n / d`: round to one
decimal place.  The rounded scaled value `⌊q * 10 + 1 / 2⌋` is computed as
`(20 * n + d) / (2 * d)` in natural-number arithmetic. -/
def toFixed1Abs (q : ℚ) : String :=
  Nat.repr ((q.num.toNat * 20 + q.den) / (2 * q.den) / 10) ++ "." ++
    Nat.repr ((q.num.toNat * 20 + q.den) / (2 * q.den) % 10)

/-- Model of JS `Number.prototype.toFixed(1)`. -/
def toFixed1 (q : ℚ) : String :=
  if q < 0 then "-" ++ toFixed1Abs (-q) else toFixed1Abs q

/-- Kind of a control element, as discriminated by `updateUIWithSettings`
(`element.type === 'range'`, `element.type === 'number'`,
`element.tagName === 'SELECT'`, anything else). -/
inductive ElemKind where
  | range
  | number
  | selectE
  | other
deriving DecidableEq

/-- The static DOM of the panel: for each setting key, the kind of the
control element whose id is that key, transcribed from the HTML in
`_getHtmlForWebview`.  `none` models `document.getElementById(key)`
returning `null`. -/
def panelControls (key : String) : Option ElemKind :=
  if key = "window.zoomLevel" || key = "editor.fontSize" ||
     key = "editor.letterSpacing" || key = "terminal.integrated.fontSize" ||
     key = "editor.scrollbar.verticalScrollbarSize" ||
     key = "editor.scrollbar.horizontalScrollbarSize" ||
     key = "editor.suggestFontSize" || key = "editor.suggestLineHeight" ||
     key = "terminal.integrated.lineHeight" then
    some .range
  else if key = "editor.lineHeight" then
    some .number
  else if key = "workbench.colorTheme" || key = "editor.fontFamily" ||
     key = "editor.mouseWheelZoom" || key = "editor.cursorStyle" ||
     key = "editor.cursorBlinking" || key = "editor.matchBrackets" ||
     key = "editor.bracketPairColorization.enabled" || key = "editor.wordWrap" ||
     key = "editor.accessibilitySupport" || key = "editor.minimap.enabled" ||
     key = "terminal.integrated.cursorStyle" || key = "editor.guides.indentation" ||
     key = "editor.guides.bracketPairs" || key = "editor.smoothScrolling" ||
     key = "editor.wrappingIndent" || key = "editor.inlayHints.enabled" ||
     key = "editor.parameterHints.enabled" || key = "editor.hover.enabled" ||
     key = "workbench.preferredDarkColorTheme" ||
     key = "workbench.preferredLightColorTheme" ||
     key = "workbench.preferredHighContrastColorTheme" ||
     key = "terminal.integrated.cursorBlinking" then
    some .selectE
  else
    none

/-- The branch structure of `updateRangeValue` applied to a successfully
parsed float: the text written to the `id + '-value'` span. -/
def rangeText (id : String) (q : ℚ) : String :=
  if strIncludes id "FontSize" || strIncludes id "ScrollbarSize" then
    if q = 0 then "Auto" else numToString q ++ "px"
  else if strIncludes id "LineHeight" then
    if q = 0 then "Auto" else toFixed1 q
  else if strIncludes id "LetterSpacing" then
    numToString q ++ "px"
  else if id = "window.zoomLevel" then
    toFixed1 q
  else
    numToString q

/-- The branch structure of `updateRangeValue` when `parseFloat` yields
`NaN` (`NaN + 'px'` is "NaNpx", `NaN.toFixed(1)` and `String(NaN)` are
"NaN"). -/
def rangeTextNaN (id : String) : String :=
  if strIncludes id "FontSize" || strIncludes id "ScrollbarSize" then "NaNpx"
  else if strIncludes id "LineHeight" then "NaN"
  else if strIncludes id "LetterSpacing" then "NaNpx"
  else "NaN"

/-- `parseFloat(element.value)` where the element's value property was last
assigned the given setting value (the DOM stores it coerced to a string:
numbers round-trip, booleans stringify to "true"/"false" and parse to NaN,
`null`/`undefined` coerce to the empty string and parse to NaN). -/
def parseFloatV : SettingValue → Option ℚ
  | .vNum q => some q
  | .vStr s => jsParseFloat s
  | .vBool _ => none
  | .absent => none

/-- Model of the webview function `updateRangeValue(element)`: the display
text written to the associated value span, given the element id and the
value currently stored in the element. -/
def updateRangeValue (id : String) (v : SettingValue) : String :=
  match parseFloatV v with
  | some q => rangeText id q
  | none => rangeTextNaN id

/-- One write to a control performed by `updateUIWithSettings`: either a
plain `element.value` assignment, or (for range inputs) the assignment plus
the `updateRangeValue` refresh of the display span. -/
inductive Push where
  | setValue : SettingValue → Push
  | setRange : SettingValue → String → Push
deriving DecidableEq

/-- The control update `updateUIWithSettings` performs for one key, given
the kind of its control element and the incoming value.  Mirrors the
`if`/`else if` chain on `element.type`/`element.tagName`. -/
def pushAction (key : String) (kd : ElemKind) (v : SettingValue) : Push :=
  match kd with
  | .range =>
    let v2 := if v = .absent then .vNum 0 else v
    .setRange v2 (updateRangeValue key v2)
  | .number => .setValue (if v = .absent then .vStr "" else v)
  | .selectE =>
    match v with
    | .vBool b => .setValue (.vStr (if b then "true" else "false"))
    | .absent => .setValue (.vStr "")
    | w => .setValue w
  | .other => .setValue (if truthy v then v else .vStr "")

/-- The `pendingUpdates` JS object: an association list from setting key to
the committed value, in insertion order. -/
abbrev Ledger : Type := List (String × SettingValue)

/-- Key lookup in the ledger (`pendingUpdates[key]`, guarded by
`hasOwnProperty`). -/
def lookupPending : Ledger → String → Option SettingValue
  | [], _ => none
  | (k1, v1) :: t, k => if k1 = k then some v1 else lookupPending t k

/-- JS object assignment `pendingUpdates[key] = value`: overwrite in place
if the key is present, append otherwise. -/
def setKey : Ledger → String → SettingValue → Ledger
  | [], k, v => [(k, v)]
  | (k1, v1) :: t, k, v => if k1 = k then (k, v) :: t else (k1, v1) :: setKey t k v

/-- JS `delete pendingUpdates[key]`: remove the entry for the key. -/
def erasePending : Ledger → String → Ledger
  | [], _ => []
  | (k1, v1) :: t, k => if k1 = k then t else (k1, v1) :: erasePending t k

/-- Well-formedness of the ledger model: at most one entry per key (a JS
object cannot hold two properties with the same name). -/
def LedgerWF (l : Ledger) : Prop :=
  (l.map Prod.fst).Nodup

instance : DecidablePred LedgerWF := fun l =>
  inferInstanceAs (Decidable ((l.map Prod.fst).Nodup))

/-- The pushes produced for one key of the snapshot: none when
`document.getElementById(key)` is `null`, otherwise the single control
update for its element kind. -/
def pushForKey (key : String) (v : SettingValue) : List (String × Push) :=
  match panelControls key with
  | some kd => [(key, pushAction key kd v)]
  | none => []

/-- Model of the webview function `updateUIWithSettings(settings)`: fold
over the snapshot entries in order; for each key, if a pending entry exists
and differs from the incoming value, `continue` (suppress); if it exists
and matches, delete it and fall through; then update the key's control if
one exists.  Returns the final ledger and the list of control updates in
order. -/
def updateUIWithSettings (pending : Ledger) :
    List (String × SettingValue) → Ledger × List (String × Push)
  | [] => (pending, [])
  | (key, value) :: rest =>
    match lookupPending pending key with
    | some pv =>
      if pv = value then
        let res := updateUIWithSettings (erasePending pending key) rest
        (res.1, pushForKey key value ++ res.2)
      else
        updateUIWithSettings pending rest
    | none =>
      let res := updateUIWithSettings pending rest
      (res.1, pushForKey key value ++ res.2)

/-- The pushes of a pass that target a given key. -/
def pushesFor (k : String) (ps : List (String × Push)) : List (String × Push) :=
  ps.filter (fun p => p.1 == k)

/-- A message posted from the webview to the extension host
(`vscode.postMessage`). -/
inductive PanelMsg where
  | applySettingsMsg : List (String × SettingValue) → PanelMsg
  | resetSettingsMsg : List String → PanelMsg
  | applyRecommendedMsg : PanelMsg
  | getCurrentSettingsMsg : PanelMsg
deriving DecidableEq

/-- Model of the webview function `applySetting(key, value)`: record the
intent in `pendingUpdates` (overwriting any existing entry for the key) and
post an `applySettings` message for that single key. -/
def applySetting (l : Ledger) (k : String) (v : SettingValue) : Ledger × PanelMsg :=
  (setKey l k v, .applySettingsMsg [(k, v)])

/-- The apostrophe character, for building JS string literals that
contain quotes. -/
def quoteCh : Char := Char.ofNat 39

/-- The recommended font family string
`'Atkinson Hyperlegible Mono', Consolas, 'Courier New', monospace`. -/
def atkinsonFF : String :=
  String.mk [quoteCh] ++ "Atkinson Hyperlegible Mono" ++ String.mk [quoteCh] ++
    ", Consolas, " ++ String.mk [quoteCh] ++ "Courier New" ++ String.mk [quoteCh] ++
    ", monospace"

/-- The fixed preset table written by `_applyRecommendedSettings`,
in `Object.entries` order. -/
def recommendedSettings : List (String × SettingValue) :=
  [("editor.fontFamily", .vStr atkinsonFF),
   ("editor.fontSize", .vNum 16),
   ("editor.mouseWheelZoom", .vBool true),
   ("editor.cursorStyle", .vStr "block"),
   ("editor.cursorBlinking", .vStr "solid"),
   ("editor.matchBrackets", .vStr "always"),
   ("editor.bracketPairColorization.enabled", .vBool true),
   ("editor.wordWrap", .vStr "on"),
   ("editor.accessibilitySupport", .vStr "on"),
   ("editor.minimap.enabled", .vBool false),
   ("editor.guides.indentation", .vBool true),
   ("editor.guides.bracketPairs", .vStr "active"),
   ("editor.smoothScrolling", .vBool true),
   ("editor.wrappingIndent", .vStr "same"),
   ("editor.inlayHints.enabled", .vStr "off"),
   ("editor.parameterHints.enabled", .vBool true),
   ("editor.hover.enabled", .vBool true),
   ("terminal.integrated.cursorStyle", .vStr "block"),
   ("terminal.integrated.cursorBlinking", .vBool true),
   ("accessibility.signals.enabled", .vBool true),
   ("audioCues.lineHasError", .vStr "on"),
   ("audioCues.lineHasBreakpoint", .vStr "on"),
   ("audioCues.taskCompleted", .vStr "on"),
   ("audioCues.taskFailed", .vStr "on")]

/-- The `allSettings` key list hardcoded in the webview function
`resetAllSettings`. -/
def allSettingsKeys : List String :=
  ["workbench.colorTheme",
   "window.zoomLevel",
   "editor.fontFamily",
   "editor.fontSize",
   "editor.lineHeight",
   "editor.letterSpacing",
   "editor.mouseWheelZoom",
   "editor.cursorStyle",
   "editor.cursorBlinking",
   "editor.matchBrackets",
   "editor.bracketPairColorization.enabled",
   "editor.wordWrap",
   "editor.accessibilitySupport",
   "editor.minimap.enabled",
   "terminal.integrated.fontSize",
   "terminal.integrated.cursorStyle",
   "editor.guides.indentation",
   "editor.guides.bracketPairs",
   "editor.smoothScrolling",
   "editor.scrollbar.verticalScrollbarSize",
   "editor.scrollbar.horizontalScrollbarSize",
   "editor.wrappingIndent",
   "editor.suggestFontSize",
   "editor.suggestLineHeight",
   "editor.inlayHints.enabled",
   "editor.parameterHints.enabled",
   "editor.hover.enabled",
   "workbench.preferredDarkColorTheme",
   "workbench.preferredLightColorTheme",
   "workbench.preferredHighContrastColorTheme",
   "terminal.integrated.lineHeight",
   "terminal.integrated.cursorBlinking"]

/-- Model of the webview function `applyRecommended()`: posts the
`applyRecommended` message; `pendingUpdates` is not touched. -/
def applyRecommended (l : Ledger) : Ledger × PanelMsg :=
  (l, .applyRecommendedMsg)

/-- Model of the webview function `resetAllSettings()`: posts the
`resetSettings` message carrying the hardcoded key list; `pendingUpdates`
is not touched. -/
def resetAllSettings (l : Ledger) : Ledger × PanelMsg :=
  (l, .resetSettingsMsg allSettingsKeys)

/-- The configuration store as seen through
`vscode.workspace.getConfiguration()`: a total map from key to value,
`absent` for keys with no global override. -/
def Store : Type := String → SettingValue

/-- One `config.update(key, value, ConfigurationTarget.Global)` call
(`value = absent` models `update(key, undefined, ...)`, which clears the
override). -/
def storeUpdate (s : Store) (k : String) (v : SettingValue) : Store :=
  fun k2 => if k2 = k then v else s k2

/-- A sequence of `config.update` calls, in list order. -/
def writeAll (s : Store) : List (String × SettingValue) → Store
  | [] => s
  | (k, v) :: rest => writeAll (storeUpdate s k v) rest

/-- Model of the extension handler `_applyRecommendedSettings`: writes the
fixed preset table through `config.update`. -/
def applyRecommendedSettings (s : Store) : Store :=
  writeAll s recommendedSettings

/-- Model of the extension handler `_resetSettings(settingKeys)`: writes
`undefined` (clear override) for each of the given keys. -/
def resetSettings (keys : List String) (s : Store) : Store :=
  writeAll s (keys.map (fun k => (k, SettingValue.absent)))

/-- The Apply Preset operation end to end: the webview posts
`applyRecommended` (ledger untouched) and the extension handler writes the
preset table to the store. -/
def applyRecommendedFlow (l : Ledger) (s : Store) : Ledger × Store :=
  ((applyRecommended l).1, applyRecommendedSettings s)

/-- The Reset operation end to end: the webview posts `resetSettings` with
its hardcoded key list (ledger untouched) and the extension handler clears
each of those keys in the store. -/
def resetAllFlow (l : Ledger) (s : Store) : Ledger × Store :=
  ((resetAllSettings l).1, resetSettings allSettingsKeys s)

/-- The store with no overrides. -/
def emptyStore : Store := fun _ => SettingValue.absent

/-- The top-level configuration sections whose changes the
`onDidChangeConfiguration` listener reacts to
(`e.affectsConfiguration('editor') || ... || e.affectsConfiguration('audioCues')`). -/
def relevantSections : List String :=
  ["editor", "workbench", "window", "terminal", "accessibility", "audioCues"]

/-- A change-notification event is modelled by the list of top-level
sections it affects; the listener's guard holds iff one of the six watched
sections is among them. -/
def relevantEvent (changed : List String) : Bool :=
  relevantSections.any (fun s => changed.contains s)

/-- The keys read by `_sendCurrentSettings` into the `currentSettings`
snapshot, in source order. -/
def trackedKeys : List String :=
  ["workbench.colorTheme",
   "window.zoomLevel",
   "editor.fontFamily",
   "editor.fontSize",
   "editor.lineHeight",
   "editor.letterSpacing",
   "editor.mouseWheelZoom",
   "editor.cursorStyle",
   "editor.cursorBlinking",
   "editor.matchBrackets",
   "editor.bracketPairColorization.enabled",
   "editor.wordWrap",
   "editor.accessibilitySupport",
   "editor.minimap.enabled",
   "terminal.integrated.fontSize",
   "terminal.integrated.cursorStyle",
   "editor.guides.indentation",
   "editor.guides.bracketPairs",
   "editor.smoothScrolling",
   "editor.scrollbar.verticalScrollbarSize",
   "editor.scrollbar.horizontalScrollbarSize",
   "editor.wrappingIndent",
   "editor.suggestFontSize",
   "editor.suggestLineHeight",
   "editor.inlayHints.enabled",
   "editor.parameterHints.enabled",
   "editor.hover.enabled",
   "workbench.preferredDarkColorTheme",
   "workbench.preferredLightColorTheme",
   "workbench.preferredHighContrastColorTheme",
   "terminal.integrated.lineHeight",
   "terminal.integrated.cursorBlinking"]

/-- Model of `_sendCurrentSettings` run against a given store state: the
snapshot of all tracked keys, in source order. -/
def sendCurrentSettings (s : Store) : List (String × SettingValue) :=
  trackedKeys.map (fun k => (k, s k))

/-- The debounce quiet period of the listener, in milliseconds. -/
def quietPeriod : Nat := 300

/-- Replay of the `onDidChangeConfiguration` listener over a time-ordered
list of `(arrival time, affected sections)` events, given the pending
timer deadline (if armed).  Returns the times at which the debounce timer
fires (each fire runs `_sendCurrentSettings`).  A pending timer whose
deadline is at or before the next event fires before that event is
handled; a relevant event clears any still-pending timer and arms a fresh
one for `quietPeriod` after its arrival; an irrelevant event changes
nothing. -/
def runNotifier : Option Nat → List (Nat × List String) → List Nat
  | some d, [] => [d]
  | none, [] => []
  | some d, (t, changed) :: rest =>
    if d ≤ t then
      d :: (if relevantEvent changed then
              runNotifier (some (t + quietPeriod)) rest
            else runNotifier none rest)
    else
      if relevantEvent changed then
        runNotifier (some (t + quietPeriod)) rest
      else runNotifier (some d) rest
  | none, (t, changed) :: rest =>
    if relevantEvent changed then
      runNotifier (some (t + quietPeriod)) rest
    else runNotifier none rest

/-- The reconciliation passes triggered by a list of change events, given
the store contents over time: one `_sendCurrentSettings` snapshot per
timer fire, taken at the fire time. -/
def notifierPasses (sigma : Nat → Store) (evs : List (Nat × List String)) :
    List (Nat × List (String × SettingValue)) :=
  (runNotifier none evs).map (fun d => (d, sendCurrentSettings (sigma d)))

/-- The key/value pair that ends up governing a key after a sequence of
writes: the last pair of the list with that key, if any. -/
def lastWrite : List (String × SettingValue) → String → Option SettingValue
  | [], _ => none
  | (k1, v1) :: t, k =>
    match lastWrite t k with
    | some v => some v
    | none => if k1 = k then some v1 else none

/-- `burstOk t rest` holds when the events of `rest` come strictly after
`t`, each strictly less than the quiet period after its predecessor. -/
def burstOk : Nat → List (Nat × List String) → Bool
  | _, [] => true
  | t, (t2, _) :: rest =>
    decide (t < t2) && decide (t2 < t + quietPeriod) && burstOk t2 rest

theorem lookupPending_eq_none_of_not_mem (l : Ledger) (k : String)
    (h : k ∉ l.map Prod.fst) : lookupPending l k = none := by
  induction l with
  | nil => rfl
  | cons p t ih =>
    obtain ⟨k1, v1⟩ := p
    simp only [List.map_cons, List.mem_cons] at h
    push_neg at h
    simp only [lookupPending, if_neg (Ne.symm h.1)]
    exact ih h.2

theorem lookupPending_mem (l : Ledger) (k : String) (v : SettingValue)
    (h : lookupPending l k = some v) : (k, v) ∈ l := by
  induction l with
  | nil => simp [lookupPending] at h
  | cons p t ih =>
    obtain ⟨k1, v1⟩ := p
    by_cases hk : k1 = k
    · subst hk
      have hv : v1 = v := by simpa [lookupPending] using h
      subst hv
      exact List.mem_cons_self _ _
    · simp only [lookupPending, if_neg hk] at h
      exact List.mem_cons_of_mem _ (ih h)

theorem mem_lookupPending (l : Ledger) (k : String) (v : SettingValue)
    (hWF : LedgerWF l) (h : (k, v) ∈ l) : lookupPending l k = some v := by
  induction l with
  | nil => simp at h
  | cons p t ih =>
    obtain ⟨k1, v1⟩ := p
    obtain ⟨h1, h2⟩ := List.nodup_cons.mp hWF
    rcases List.mem_cons.mp h with heq | hmem
    · obtain ⟨hk, hv⟩ := Prod.mk.injEq .. ▸ heq
      simp [lookupPending, hk.symm, hv]
    · have hkt : k ∈ t.map Prod.fst := List.mem_map.mpr ⟨(k, v), hmem, rfl⟩
      have hne : k1 ≠ k := fun hc => h1 (hc ▸ hkt)
      simp only [lookupPending, if_neg hne]
      exact ih h2 hmem

theorem erasePending_sublist (l : Ledger) (k : String) :
    List.Sublist (erasePending l k) l := by
  induction l with
  | nil => exact List.Sublist.refl _
  | cons p t ih =>
    obtain ⟨k1, v1⟩ := p
    by_cases hk : k1 = k
    · simp only [erasePending, if_pos hk]
      exact List.sublist_cons_self _ _
    · simp only [erasePending, if_neg hk]
      exact ih.cons₂ _

theorem ledgerWF_erase (l : Ledger) (k : String) (hWF : LedgerWF l) :
    LedgerWF (erasePending l k) :=
  List.Nodup.sublist ((erasePending_sublist l k).map Prod.fst) hWF

theorem lookupPending_erase_ne (l : Ledger) (k k2 : String) (h : k ≠ k2) :
    lookupPending (erasePending l k2) k = lookupPending l k := by
  induction l with
  | nil => rfl
  | cons p t ih =>
    obtain ⟨k1, v1⟩ := p
    by_cases h1 : k1 = k2
    · simp only [erasePending, if_pos h1, lookupPending,
        if_neg (h1 ▸ fun hc => h hc.symm : k1 ≠ k)]
    · simp only [erasePending, if_neg h1, lookupPending]
      by_cases h2 : k1 = k
      · simp [h2]
      · simp only [if_neg h2]
        exact ih

theorem lookupPending_erase_self (l : Ledger) (k : String) (hWF : LedgerWF l) :
    lookupPending (erasePending l k) k = none := by
  induction l with
  | nil => rfl
  | cons p t ih =>
    obtain ⟨k1, v1⟩ := p
    obtain ⟨h1, h2⟩ := List.nodup_cons.mp hWF
    by_cases hk : k1 = k
    · simp only [erasePending, if_pos hk]
      refine lookupPending_eq_none_of_not_mem t k (fun hc => h1 ?_)
      exact hk ▸ hc
    · simp only [erasePending, if_neg hk, lookupPending, if_neg hk]
      exact ih h2

theorem setKey_setKey (l : Ledger) (k : String) (a b : SettingValue) :
    setKey (setKey l k a) k b = setKey l k b := by
  induction l with
  | nil => simp [setKey]
  | cons p t ih =>
    obtain ⟨k1, v1⟩ := p
    by_cases hk : k1 = k
    · simp [setKey, hk]
    · simp [setKey, hk, ih]

theorem lookupPending_setKey_self (l : Ledger) (k : String) (v : SettingValue) :
    lookupPending (setKey l k v) k = some v := by
  induction l with
  | nil => simp [setKey, lookupPending]
  | cons p t ih =>
    obtain ⟨k1, v1⟩ := p
    by_cases hk : k1 = k
    · simp [setKey, hk, lookupPending]
    · simp [setKey, hk, lookupPending, ih]

theorem mem_keys_setKey (l : Ledger) (k k2 : String) (v : SettingValue)
    (h : k2 ∈ (setKey l k v).map Prod.fst) :
    k2 ∈ l.map Prod.fst ∨ k2 = k := by
  induction l with
  | nil =>
    simp only [setKey, List.map_cons, List.map_nil, List.mem_singleton] at h
    exact Or.inr h
  | cons p t ih =>
    obtain ⟨k1, v1⟩ := p
    by_cases hk : k1 = k
    · simp only [setKey, if_pos hk, List.map_cons, List.mem_cons] at h
      rcases h with h | h
      · exact Or.inr h
      · exact Or.inl (List.mem_cons_of_mem _ h)
    · simp only [setKey, if_neg hk, List.map_cons, List.mem_cons] at h
      rcases h with h | h
      · exact Or.inl (List.mem_cons.mpr (Or.inl h))
      · rcases ih h with h2 | h2
        · exact Or.inl (List.mem_cons_of_mem _ h2)
        · exact Or.inr h2

theorem ledgerWF_setKey (l : Ledger) (k : String) (v : SettingValue)
    (hWF : LedgerWF l) : LedgerWF (setKey l k v) := by
  induction l with
  | nil => simp [setKey, LedgerWF]
  | cons p t ih =>
    obtain ⟨k1, v1⟩ := p
    obtain ⟨h1, h2⟩ := List.nodup_cons.mp hWF
    by_cases hk : k1 = k
    · rw [show setKey ((k1, v1) :: t) k v = (k, v) :: t by simp [setKey, hk]]
      unfold LedgerWF
      simp only [List.map_cons]
      exact List.nodup_cons.mpr ⟨hk ▸ h1, h2⟩
    · have ht := ih h2
      rw [show setKey ((k1, v1) :: t) k v = (k1, v1) :: setKey t k v by
        simp [setKey, hk]]
      unfold LedgerWF
      simp only [List.map_cons]
      refine List.nodup_cons.mpr ⟨fun hc => ?_, ht⟩
      rcases mem_keys_setKey t k k1 v hc with h3 | h3
      · exact h1 h3
      · exact hk h3

theorem pushesFor_pushForKey_ne (k k1 : String) (v : SettingValue)
    (h : k1 ≠ k) : pushesFor k (pushForKey k1 v) = [] := by
  unfold pushForKey pushesFor
  cases panelControls k1 with
  | none => rfl
  | some kd => simp [List.filter, beq_eq_false_iff_ne.mpr h]

theorem pushesFor_pushForKey_self (k : String) (v : SettingValue) :
    pushesFor k (pushForKey k v) = pushForKey k v := by
  unfold pushForKey pushesFor
  cases panelControls k with
  | none => rfl
  | some kd => simp [List.filter]

theorem pushesFor_append (k : String) (ps qs : List (String × Push)) :
    pushesFor k (ps ++ qs) = pushesFor k ps ++ pushesFor k qs := by
  unfold pushesFor
  exact List.filter_append ps qs

theorem updateUI_ledger_sublist (S : List (String × SettingValue)) :
    ∀ pending : Ledger,
      List.Sublist (updateUIWithSettings pending S).1 pending := by
  induction S with
  | nil => intro pending; exact List.Sublist.refl _
  | cons e rest ih =>
    intro pending
    obtain ⟨key, value⟩ := e
    unfold updateUIWithSettings
    cases hl : lookupPending pending key with
    | some pv =>
      by_cases hv : pv = value
      · simp only [if_pos hv]
        exact ((ih (erasePending pending key)).trans
          (erasePending_sublist pending key))
      · simp only [if_neg hv]
        exact ih pending
    | none =>
      exact ih pending

theorem updateUI_ledger_WF (S : List (String × SettingValue))
    (pending : Ledger) (hWF : LedgerWF pending) :
    LedgerWF (updateUIWithSettings pending S).1 :=
  List.Nodup.sublist ((updateUI_ledger_sublist S pending).map Prod.fst) hWF

theorem updateUI_frame (S : List (String × SettingValue)) (k : String)
    (hk : k ∉ S.map Prod.fst) :
    ∀ pending : Ledger,
      lookupPending (updateUIWithSettings pending S).1 k = lookupPending pending k ∧
      pushesFor k (updateUIWithSettings pending S).2 = [] := by
  induction S with
  | nil => intro pending; exact ⟨rfl, rfl⟩
  | cons e rest ih =>
    intro pending
    obtain ⟨key, value⟩ := e
    simp only [List.map_cons, List.mem_cons] at hk
    push_neg at hk
    obtain ⟨hne, hrest⟩ := hk
    have hne2 : key ≠ k := fun hc => hne hc.symm
    unfold updateUIWithSettings
    cases hl : lookupPending pending key with
    | some pv =>
      by_cases hv : pv = value
      · simp only [if_pos hv]
        obtain ⟨ih1, ih2⟩ := ih hrest (erasePending pending key)
        refine ⟨?_, ?_⟩
        · rw [ih1, lookupPending_erase_ne pending k key (fun hc => hne2 hc.symm)]
        · rw [pushesFor_append, ih2, pushesFor_pushForKey_ne k key value hne2]
          rfl
      · simp only [if_neg hv]
        exact ih hrest pending
    | none =>
      obtain ⟨ih1, ih2⟩ := ih hrest pending
      refine ⟨ih1, ?_⟩
      rw [pushesFor_append, ih2, pushesFor_pushForKey_ne k key value hne2]
      rfl

theorem updateUI_cons_none (pending : Ledger) (key : String) (value : SettingValue)
    (rest : List (String × SettingValue))
    (hl : lookupPending pending key = none) :
    updateUIWithSettings pending ((key, value) :: rest) =
      ((updateUIWithSettings pending rest).1,
       pushForKey key value ++ (updateUIWithSettings pending rest).2) := by
  conv_lhs => rw [updateUIWithSettings]
  rw [hl]

theorem updateUI_cons_skip (pending : Ledger) (key : String)
    (value pv : SettingValue) (rest : List (String × SettingValue))
    (hl : lookupPending pending key = some pv) (hv : pv ≠ value) :
    updateUIWithSettings pending ((key, value) :: rest) =
      updateUIWithSettings pending rest := by
  conv_lhs => rw [updateUIWithSettings]
  rw [hl]
  simp only [if_neg hv]

theorem updateUI_cons_resolve (pending : Ledger) (key : String)
    (value pv : SettingValue) (rest : List (String × SettingValue))
    (hl : lookupPending pending key = some pv) (hv : pv = value) :
    updateUIWithSettings pending ((key, value) :: rest) =
      ((updateUIWithSettings (erasePending pending key) rest).1,
       pushForKey key value ++
         (updateUIWithSettings (erasePending pending key) rest).2) := by
  conv_lhs => rw [updateUIWithSettings]
  rw [hl]
  simp only [if_pos hv]

theorem updateUI_append (l1 l2 : List (String × SettingValue)) :
    ∀ pending : Ledger,
      updateUIWithSettings pending (l1 ++ l2) =
        ((updateUIWithSettings (updateUIWithSettings pending l1).1 l2).1,
         (updateUIWithSettings pending l1).2 ++
           (updateUIWithSettings (updateUIWithSettings pending l1).1 l2).2) := by
  induction l1 with
  | nil => intro pending; simp [updateUIWithSettings]
  | cons e rest ih =>
    intro pending
    obtain ⟨key, value⟩ := e
    cases hl : lookupPending pending key with
    | some pv =>
      by_cases hv : pv = value
      · rw [List.cons_append,
          updateUI_cons_resolve pending key value pv (rest ++ l2) hl hv,
          updateUI_cons_resolve pending key value pv rest hl hv,
          ih (erasePending pending key)]
        simp [List.append_assoc]
      · rw [List.cons_append,
          updateUI_cons_skip pending key value pv (rest ++ l2) hl hv,
          updateUI_cons_skip pending key value pv rest hl hv]
        exact ih pending
    | none =>
      rw [List.cons_append,
        updateUI_cons_none pending key value (rest ++ l2) hl,
        updateUI_cons_none pending key value rest hl,
        ih pending]
      simp [List.append_assoc]

theorem updateUI_hit (k : String) (vIn v : SettingValue)
    (rest : List (String × SettingValue)) (pending : Ledger)
    (hWF : LedgerWF pending) (hpend : lookupPending pending k = some v)
    (hrest : k ∉ rest.map Prod.fst) :
    (vIn ≠ v →
      pushesFor k (updateUIWithSettings pending ((k, vIn) :: rest)).2 = [] ∧
      lookupPending (updateUIWithSettings pending ((k, vIn) :: rest)).1 k = some v) ∧
    (vIn = v →
      pushesFor k (updateUIWithSettings pending ((k, vIn) :: rest)).2 = pushForKey k v ∧
      lookupPending (updateUIWithSettings pending ((k, vIn) :: rest)).1 k = none) := by
  constructor
  · intro hne
    rw [updateUI_cons_skip pending k vIn v rest hpend (fun hc => hne hc.symm)]
    obtain ⟨h1, h2⟩ := updateUI_frame rest k hrest pending
    exact ⟨h2, h1.trans hpend⟩
  · intro heq
    subst heq
    rw [updateUI_cons_resolve pending k vIn vIn rest hpend rfl]
    obtain ⟨h1, h2⟩ := updateUI_frame rest k hrest (erasePending pending k)
    refine ⟨?_, ?_⟩
    · rw [pushesFor_append, h2, pushesFor_pushForKey_self, List.append_nil]
    · rw [h1, lookupPending_erase_self pending k hWF]

/-- C1: for every key K with a pending entry of value V and a control in
the panel, a reconciliation pass (`updateUIWithSettings`) over a snapshot
in which K maps to a value different from V performs no control update for
K and leaves K's pending entry in place, while a pass over a snapshot in
which K maps to V itself updates K's control with the formatted value and
deletes K's pending entry. -/
theorem C1_staleness_suppression
    (pending : Ledger) (S : List (String × SettingValue)) (k : String)
    (v vIn : SettingValue) (kd : ElemKind)
    (hWF : LedgerWF pending) (hpend : lookupPending pending k = some v)
    (hctrl : panelControls k = some kd)
    (hmem : (k, vIn) ∈ S) (hnd : (S.map Prod.fst).Nodup) :
    (vIn ≠ v →
      pushesFor k (updateUIWithSettings pending S).2 = [] ∧
      lookupPending (updateUIWithSettings pending S).1 k = some v) ∧
    (vIn = v →
      pushesFor k (updateUIWithSettings pending S).2 = [(k, pushAction k kd v)] ∧
      lookupPending (updateUIWithSettings pending S).1 k = none) := by
  obtain ⟨pre, post, rfl⟩ := List.append_of_mem hmem
  rw [List.map_append, List.map_cons] at hnd
  obtain ⟨hnd1, hnd2, hdisj⟩ := List.nodup_append.mp hnd
  have hkpost : k ∉ post.map Prod.fst := (List.nodup_cons.mp hnd2).1
  have hkpre : k ∉ pre.map Prod.fst := fun hc => hdisj hc (List.mem_cons_self _ _)
  rw [updateUI_append pre ((k, vIn) :: post) pending]
  obtain ⟨hf1, hf2⟩ := updateUI_frame pre k hkpre pending
  have hWF1 : LedgerWF (updateUIWithSettings pending pre).1 :=
    updateUI_ledger_WF pre pending hWF
  have hpend1 : lookupPending (updateUIWithSettings pending pre).1 k = some v :=
    hf1.trans hpend
  obtain ⟨hA, hB⟩ :=
    updateUI_hit k vIn v post (updateUIWithSettings pending pre).1 hWF1 hpend1 hkpost
  constructor
  · intro hne
    obtain ⟨p1, p2⟩ := hA hne
    refine ⟨?_, p2⟩
    rw [pushesFor_append, hf2, p1]
    rfl
  · intro heq
    obtain ⟨p1, p2⟩ := hB heq
    refine ⟨?_, p2⟩
    rw [pushesFor_append, hf2, p1]
    simp [pushForKey, hctrl]

/-- Witness for C1 at a concrete input: with a pending entry
editor.fontSize = 16, a snapshot carrying editor.fontSize = 14 pushes
nothing for that key and keeps the entry. -/
theorem C1_staleness_suppression_witness :
    pushesFor "editor.fontSize"
        (updateUIWithSettings [("editor.fontSize", SettingValue.vNum 16)]
          [("editor.fontSize", SettingValue.vNum 14)]).2 = [] ∧
    lookupPending
        (updateUIWithSettings [("editor.fontSize", SettingValue.vNum 16)]
          [("editor.fontSize", SettingValue.vNum 14)]).1 "editor.fontSize" =
      some (SettingValue.vNum 16) :=
  (C1_staleness_suppression [("editor.fontSize", SettingValue.vNum 16)]
      [("editor.fontSize", SettingValue.vNum 14)] "editor.fontSize"
      (SettingValue.vNum 16) (SettingValue.vNum 14) ElemKind.range
      (by decide) (by decide) (by decide) (by decide) (by decide)).1 (by decide)

/-- C2: recording intent is last-writer-wins per key: `applySetting(K, A)`
then `applySetting(K, B)` leaves the ledger in the same state as
`applySetting(K, B)` alone; a subsequent snapshot with K = A is suppressed
(no push, entry stays at B) while a snapshot with K = B resolves: the
entry is cleared and the control is updated. -/
theorem C2_last_writer_wins
    (l : Ledger) (k : String) (a b : SettingValue)
    (hWF : LedgerWF l) (hab : a ≠ b) :
    (applySetting (applySetting l k a).1 k b).1 = (applySetting l k b).1 ∧
    (updateUIWithSettings (applySetting (applySetting l k a).1 k b).1 [(k, a)]).2 = [] ∧
    lookupPending
        (updateUIWithSettings (applySetting (applySetting l k a).1 k b).1 [(k, a)]).1 k =
      some b ∧
    lookupPending
        (updateUIWithSettings (applySetting (applySetting l k a).1 k b).1 [(k, b)]).1 k =
      none ∧
    (updateUIWithSettings (applySetting (applySetting l k a).1 k b).1 [(k, b)]).2 =
      pushForKey k b := by
  simp only [applySetting]
  have hWFb : LedgerWF (setKey (setKey l k a) k b) :=
    ledgerWF_setKey _ k b (ledgerWF_setKey l k a hWF)
  have hlook : lookupPending (setKey (setKey l k a) k b) k = some b :=
    lookupPending_setKey_self _ k b
  refine ⟨setKey_setKey l k a b, ?_, ?_, ?_, ?_⟩
  · rw [updateUI_cons_skip _ k a b [] hlook (fun hc => hab hc.symm)]
    rfl
  · rw [updateUI_cons_skip _ k a b [] hlook (fun hc => hab hc.symm)]
    exact hlook
  · rw [updateUI_cons_resolve _ k b b [] hlook rfl]
    exact lookupPending_erase_self _ k hWFb
  · rw [updateUI_cons_resolve _ k b b [] hlook rfl]
    simp [updateUIWithSettings]

/-- Witness for C2 at a concrete input: two commits 16 then 18 to
editor.fontSize leave the same ledger as committing 18 alone. -/
theorem C2_last_writer_wins_witness :
    (applySetting (applySetting [] "editor.fontSize" (SettingValue.vNum 16)).1
        "editor.fontSize" (SettingValue.vNum 18)).1 =
      (applySetting [] "editor.fontSize" (SettingValue.vNum 18)).1 :=
  (C2_last_writer_wins [] "editor.fontSize" (SettingValue.vNum 16)
      (SettingValue.vNum 18) (by decide) (by decide)).1

theorem writeAll_apply (l : List (String × SettingValue)) :
    ∀ (s : Store) (k : String),
      writeAll s l k = (lastWrite l k).getD (s k) := by
  induction l with
  | nil => intro s k; rfl
  | cons p t ih =>
    intro s k
    obtain ⟨k1, v1⟩ := p
    rw [show writeAll s ((k1, v1) :: t) = writeAll (storeUpdate s k1 v1) t from rfl,
      ih]
    cases h : lastWrite t k with
    | some v => simp [lastWrite, h]
    | none =>
      simp only [lastWrite, h]
      by_cases hk : k1 = k
      · simp [storeUpdate, hk]
      · simp [storeUpdate, hk, Ne.symm hk]

theorem writeAll_idem (l : List (String × SettingValue)) (s : Store) :
    writeAll (writeAll s l) l = writeAll s l := by
  funext k
  rw [writeAll_apply, writeAll_apply]
  cases h : lastWrite l k with
  | some v => rfl
  | none => rfl

/-- C4 counterexample: neither bulk operation records any Pending Entry.
Starting from an empty ledger, Apply Preset leaves the ledger empty even
though editor.fontSize = 16 is in the preset table, and Reset leaves the
ledger empty even though editor.fontSize is in the managed key list, so
the written keys do not have Pending Entries. -/
theorem C4_counterexample :
    ("editor.fontSize", SettingValue.vNum 16) ∈ recommendedSettings ∧
    (applyRecommendedFlow [] emptyStore).1 = [] ∧
    "editor.fontSize" ∈ allSettingsKeys ∧
    (resetAllFlow [] emptyStore).1 = [] :=
  ⟨by decide, rfl, by decide, rfl⟩

/-- C4 amended: the bulk operations record no Pending Entries at all: the
webview handlers `applyRecommended` and `resetAllSettings` only post
messages, leaving `pendingUpdates` unchanged, while the extension handlers
write the preset values (resp. clear every managed key) in the store. -/
theorem C4_bulk_no_pending (l : Ledger) (s : Store) :
    (applyRecommendedFlow l s).1 = l ∧
    (resetAllFlow l s).1 = l ∧
    (applyRecommendedFlow l s).2 = writeAll s recommendedSettings ∧
    (resetAllFlow l s).2 =
      writeAll s (allSettingsKeys.map (fun k => (k, SettingValue.absent))) ∧
    (applyRecommendedFlow l s).2 "editor.fontSize" = SettingValue.vNum 16 ∧
    (resetAllFlow l s).2 "editor.fontSize" = SettingValue.absent := by
  refine ⟨rfl, rfl, rfl, rfl, ?_, ?_⟩
  · show writeAll s recommendedSettings "editor.fontSize" = SettingValue.vNum 16
    rw [writeAll_apply,
      show lastWrite recommendedSettings "editor.fontSize" =
        some (SettingValue.vNum 16) by decide]
    rfl
  · show writeAll s (allSettingsKeys.map (fun k => (k, SettingValue.absent)))
        "editor.fontSize" = SettingValue.absent
    rw [writeAll_apply,
      show lastWrite (allSettingsKeys.map (fun k => (k, SettingValue.absent)))
        "editor.fontSize" = some SettingValue.absent by decide]
    rfl

/-- C6: both bulk operations are idempotent with respect to the store:
writing the preset table twice produces the same store as writing it once,
and a second Reset changes nothing beyond the first. -/
theorem C6_bulk_idempotent (s : Store) :
    applyRecommendedSettings (applyRecommendedSettings s) =
      applyRecommendedSettings s ∧
    resetSettings allSettingsKeys (resetSettings allSettingsKeys s) =
      resetSettings allSettingsKeys s :=
  ⟨writeAll_idem recommendedSettings s,
   writeAll_idem (allSettingsKeys.map (fun k => (k, SettingValue.absent))) s⟩

/-- C5 counterexample: on the line-height range editor.suggestLineHeight,
the raw value 20 (strictly greater than 8) formats as "20.0" via
`toFixed(1)`, not as the absolute pixel string "20px" the claim
requires. -/
theorem C5_counterexample :
    updateRangeValue "editor.suggestLineHeight" (SettingValue.vNum 20) = "20.0" ∧
    "20.0" ≠ "20px" :=
  ⟨by decide, by decide⟩

/-- C5 amended: line-height formatting in `updateRangeValue` has no
pixel branch and no threshold at 8: a raw value of 0 formats as "Auto" and
every nonzero raw value — below, at, or above 8 — formats as a
`toFixed(1)` multiplier-style string (1.6 → "1.6", 8 → "8.0",
20 → "20.0").  The "px" suffix is produced only by the
FontSize/ScrollbarSize branch (editor.suggestFontSize: 20 → "20px",
0 → "Auto"). -/
theorem C5_lineheight_formatting :
    (∀ q : ℚ, updateRangeValue "editor.suggestLineHeight" (SettingValue.vNum q) =
      if q = 0 then "Auto" else toFixed1 q) ∧
    updateRangeValue "editor.suggestLineHeight" (SettingValue.vNum 0) = "Auto" ∧
    updateRangeValue "editor.suggestLineHeight" (SettingValue.vNum (Rat.divInt 16 10)) = "1.6" ∧
    updateRangeValue "editor.suggestLineHeight" (SettingValue.vNum 8) = "8.0" ∧
    updateRangeValue "editor.suggestLineHeight" (SettingValue.vNum 20) = "20.0" ∧
    updateRangeValue "editor.suggestFontSize" (SettingValue.vNum 20) = "20px" ∧
    updateRangeValue "editor.suggestFontSize" (SettingValue.vNum 0) = "Auto" := by
  refine ⟨?_, by decide, by decide, by decide, by decide, by decide, by decide⟩
  intro q
  show rangeText "editor.suggestLineHeight" q = _
  unfold rangeText
  rw [show (strIncludes "editor.suggestLineHeight" "FontSize" ||
      strIncludes "editor.suggestLineHeight" "ScrollbarSize") = false by decide]
  rw [show strIncludes "editor.suggestLineHeight" "LineHeight" = true by decide]
  simp

/-- C7: a reconciliation pass over any snapshot performs no control update
for a key that has no control element in the panel
(`document.getElementById` returns null): the key is skipped silently,
whatever the ledger holds. -/
theorem C7_unknown_key_skipped (pending : Ledger)
    (S : List (String × SettingValue)) (k : String)
    (h : panelControls k = none) :
    pushesFor k (updateUIWithSettings pending S).2 = [] := by
  induction S generalizing pending with
  | nil => rfl
  | cons e rest ih =>
    obtain ⟨key, value⟩ := e
    have hpf : pushesFor k (pushForKey key value) = [] := by
      by_cases hk : key = k
      · subst hk
        simp [pushForKey, h, pushesFor]
      · exact pushesFor_pushForKey_ne k key value hk
    cases hl : lookupPending pending key with
    | some pv =>
      by_cases hv : pv = value
      · rw [updateUI_cons_resolve pending key value pv rest hl hv]
        simp only [pushesFor_append, hpf, List.nil_append]
        exact ih _
      · rw [updateUI_cons_skip pending key value pv rest hl hv]
        exact ih pending
    | none =>
      rw [updateUI_cons_none pending key value rest hl]
      simp only [pushesFor_append, hpf, List.nil_append]
      exact ih _

/-- Witness for C7 at a concrete input: files.autoSave has no control in
the panel, so a snapshot carrying it produces no push. -/
theorem C7_unknown_key_skipped_witness :
    pushesFor "files.autoSave"
        (updateUIWithSettings [] [("files.autoSave", SettingValue.vStr "off")]).2 = [] :=
  C7_unknown_key_skipped [] [("files.autoSave", SettingValue.vStr "off")]
    "files.autoSave" (by decide)

/-- C8: the at-most-one-pending-entry-per-key invariant is preserved by
every ledger operation: by `applySetting` (recordIntent overwrites in
place) and by a full reconciliation pass (which only deletes entries). -/
theorem C8_single_pending_entry (l : Ledger) (hWF : LedgerWF l) (k : String)
    (v : SettingValue) (S : List (String × SettingValue)) :
    LedgerWF (applySetting l k v).1 ∧
    LedgerWF (updateUIWithSettings l S).1 :=
  ⟨ledgerWF_setKey l k v hWF, updateUI_ledger_WF S l hWF⟩

/-- Witness for C8 at a concrete input. -/
theorem C8_single_pending_entry_witness :
    LedgerWF (applySetting [("editor.fontSize", SettingValue.vNum 16)]
        "editor.lineHeight" (SettingValue.vNum 0)).1 ∧
    LedgerWF (updateUIWithSettings [("editor.fontSize", SettingValue.vNum 16)]
        [("editor.fontSize", SettingValue.vNum 16)]).1 :=
  C8_single_pending_entry [("editor.fontSize", SettingValue.vNum 16)] (by decide)
    "editor.lineHeight" (SettingValue.vNum 0)
    [("editor.fontSize", SettingValue.vNum 16)]

theorem updateUI_erase_cause (S : List (String × SettingValue)) :
    ∀ pending : Ledger, LedgerWF pending →
      ∀ k v, lookupPending pending k = some v →
        lookupPending (updateUIWithSettings pending S).1 k = none →
        (k, v) ∈ S := by
  induction S with
  | nil =>
    intro pending _ k v h1 h2
    exact absurd (h1.symm.trans h2) (Option.some_ne_none v)
  | cons e rest ih =>
    intro pending hWF k v h1 h2
    obtain ⟨key, value⟩ := e
    cases hl : lookupPending pending key with
    | some pv =>
      by_cases hv : pv = value
      · rw [updateUI_cons_resolve pending key value pv rest hl hv] at h2
        by_cases hk : key = k
        · subst hk
          have hveq : value = v := by
            rw [← hv]
            exact Option.some_injective _ (hl.symm.trans h1)
          apply List.mem_cons.mpr
          left
          rw [hveq]
        · have h1b : lookupPending (erasePending pending key) k = some v := by
            rw [lookupPending_erase_ne pending k key (Ne.symm hk)]
            exact h1
          exact List.mem_cons_of_mem _
            (ih (erasePending pending key) (ledgerWF_erase pending key hWF) k v h1b h2)
      · rw [updateUI_cons_skip pending key value pv rest hl hv] at h2
        exact List.mem_cons_of_mem _ (ih pending hWF k v h1 h2)
    | none =>
      rw [updateUI_cons_none pending key value rest hl] at h2
      exact List.mem_cons_of_mem _ (ih pending hWF k v h1 h2)

/-- C9: a reconciliation pass never generates new intent: the resulting
ledger is a sublist of the starting one (no entry is added or modified),
and an entry can only disappear when the snapshot carried that key with
exactly its committed value. -/
theorem C9_reconciliation_no_new_intent (pending : Ledger)
    (S : List (String × SettingValue)) (hWF : LedgerWF pending) :
    List.Sublist (updateUIWithSettings pending S).1 pending ∧
    ∀ k v, lookupPending pending k = some v →
      lookupPending (updateUIWithSettings pending S).1 k = none →
      (k, v) ∈ S :=
  ⟨updateUI_ledger_sublist S pending, updateUI_erase_cause S pending hWF⟩

/-- Witness for C9 at a concrete input: the pending editor.fontSize = 16
entry disappears in a pass only because the snapshot carried that exact
pair. -/
theorem C9_reconciliation_no_new_intent_witness :
    ("editor.fontSize", SettingValue.vNum 16) ∈
      [("editor.fontSize", SettingValue.vNum 16)] :=
  (C9_reconciliation_no_new_intent [("editor.fontSize", SettingValue.vNum 16)]
      [("editor.fontSize", SettingValue.vNum 16)] (by decide)).2
    "editor.fontSize" (SettingValue.vNum 16) (by decide) (by decide)

/-- C10: when a reconciliation pass meets a managed key whose store value
is absent, the key is not skipped: a range control is pushed the value 0,
and a number input or dropdown is pushed the empty string; on the
`editor.suggestFontSize` range, size-kind formatting then displays
"Auto". -/
theorem C10_absent_value_push (k : String) (kd : ElemKind)
    (h : panelControls k = some kd) :
    (updateUIWithSettings [] [(k, SettingValue.absent)]).2 ≠ [] ∧
    (kd = ElemKind.range →
      ∃ d, (updateUIWithSettings [] [(k, SettingValue.absent)]).2 =
        [(k, Push.setRange (SettingValue.vNum 0) d)]) ∧
    (kd = ElemKind.number →
      (updateUIWithSettings [] [(k, SettingValue.absent)]).2 =
        [(k, Push.setValue (SettingValue.vStr ""))]) ∧
    (kd = ElemKind.selectE →
      (updateUIWithSettings [] [(k, SettingValue.absent)]).2 =
        [(k, Push.setValue (SettingValue.vStr ""))]) ∧
    (updateUIWithSettings [] [("editor.suggestFontSize", SettingValue.absent)]).2 =
      [("editor.suggestFontSize", Push.setRange (SettingValue.vNum 0) "Auto")] := by
  have hstep : (updateUIWithSettings [] [(k, SettingValue.absent)]).2 =
      [(k, pushAction k kd SettingValue.absent)] := by
    rw [updateUI_cons_none [] k SettingValue.absent [] rfl]
    simp [pushForKey, h, updateUIWithSettings]
  refine ⟨by rw [hstep]; simp, ?_, ?_, ?_, by decide⟩
  · intro hr
    subst hr
    exact ⟨updateRangeValue k (SettingValue.vNum 0), by rw [hstep]; simp [pushAction]⟩
  · intro hr
    subst hr
    rw [hstep]
    simp [pushAction]
  · intro hr
    subst hr
    rw [hstep]
    simp [pushAction]

/-- Witness for C10 at a concrete input: the editor.lineHeight number
input receives the empty string when the store value is absent. -/
theorem C10_absent_value_push_witness :
    (updateUIWithSettings [] [("editor.lineHeight", SettingValue.absent)]).2 =
      [("editor.lineHeight", Push.setValue (SettingValue.vStr ""))] :=
  (C10_absent_value_push "editor.lineHeight" ElemKind.number (by decide)).2.2.1 rfl

theorem runNotifier_burst (rest : List (Nat × List String)) :
    ∀ t : Nat, burstOk t rest = true →
      rest.all (fun e => relevantEvent e.2) = true →
      runNotifier (some (t + quietPeriod)) rest =
        [(rest.map Prod.fst).getLastD t + quietPeriod] := by
  induction rest with
  | nil => intro t _ _; rfl
  | cons e rest2 ih =>
    intro t hb ha
    obtain ⟨t2, c2⟩ := e
    simp only [burstOk, Bool.and_eq_true, decide_eq_true_eq] at hb
    obtain ⟨⟨hlt, hlt2⟩, hb2⟩ := hb
    simp only [List.all_cons, Bool.and_eq_true] at ha
    obtain ⟨hrel, ha2⟩ := ha
    have hstep : runNotifier (some (t + quietPeriod)) ((t2, c2) :: rest2) =
        runNotifier (some (t2 + quietPeriod)) rest2 := by
      conv_lhs => rw [runNotifier]
      rw [if_neg (show ¬ t + quietPeriod ≤ t2 by omega), if_pos hrel]
    rw [hstep, ih t2 hb2 ha2, List.map_cons, List.getLastD_cons]

/-- C3: the change notifier is a trailing-edge debounce: for a burst of
relevant change events in which every event arrives strictly less than the
quiet period (300 ms) after the previous one, exactly one reconciliation
pass runs; it fires one quiet period after the last event of the burst and
snapshots the tracked keys from the store as it is at that fire time. -/
theorem C3_debounce_coalescing
    (sigma : Nat → Store) (t0 : Nat) (c0 : List String)
    (rest : List (Nat × List String))
    (h0 : relevantEvent c0 = true)
    (hall : rest.all (fun e => relevantEvent e.2) = true)
    (hburst : burstOk t0 rest = true) :
    notifierPasses sigma ((t0, c0) :: rest) =
      [((rest.map Prod.fst).getLastD t0 + quietPeriod,
        sendCurrentSettings (sigma ((rest.map Prod.fst).getLastD t0 + quietPeriod)))] := by
  unfold notifierPasses
  rw [show runNotifier none ((t0, c0) :: rest) =
      runNotifier (some (t0 + quietPeriod)) rest by
        conv_lhs => rw [runNotifier]
        rw [if_pos h0]]
  rw [runNotifier_burst rest t0 hburst hall]
  rfl

/-- Witness for C3 at a concrete input: three relevant events at t = 0,
100, 250 ms produce exactly one pass, at t = 550 ms. -/
theorem C3_debounce_coalescing_witness :
    notifierPasses (fun _ => emptyStore)
        [(0, ["editor"]), (100, ["window"]), (250, ["editor"])] =
      [(550, sendCurrentSettings emptyStore)] :=
  C3_debounce_coalescing (fun _ => emptyStore) 0 ["editor"]
    [(100, ["window"]), (250, ["editor"])] (by decide) (by decide) (by decide)
